import Mathlib

/-!
Shallow embedding of `expression-solver-rust` (`src/src/lib.rs`) and proofs
about its tokenizer, its operator tables, and its calculator stub.

Machine integers: the Rust code works with `u32`.  We embed `u32` values as
`Nat` together with the bound `u32Max = 4294967295`; the places where the Rust
code can overflow or abort are embedded as `Option`-valued functions, where
`none` means the Rust call aborts (an `unwrap` failure or a `panic`).
-/

/-- `u32::MAX`, the largest value a `u32` can hold. -/
def u32Max : Nat := 4294967295

theorem u32Max_eq : u32Max = 4294967295 := rfl

/-- The different binary operations that could appear in an expression
(Rust `enum Operations`). -/
inductive Operations where
  | Add
  | Subtract
  | Multiply
  | Divide
  | Power
deriving DecidableEq

/-- Something that can appear in a valid expression (Rust `enum ExpressionAtom`).
`Number` carries a `u32` in the source, embedded as a `Nat`. -/
inductive ExpressionAtom where
  | Number (value : Nat)
  | Operation (op : Operations)
  | LeftParenthesis
  | RightParenthesis
deriving DecidableEq

/-- `ORDER_OF_OPERATIONS`: what order operations are calculated in
(lines 75–76 of the source). -/
def ORDER_OF_OPERATIONS : List Operations :=
  [Operations.Power, Operations.Multiply, Operations.Divide,
   Operations.Add, Operations.Subtract]

/-- `turn_into_operation` (lines 79–88): given a character representing a
mathematical operation, turn it into the `Operations` enum.  The Rust `match`
tries the five operator characters in order and falls through to `None`. -/
def turn_into_operation (operation_character : Char) : Option Operations :=
  if operation_character = '+' then some Operations.Add
  else if operation_character = '-' then some Operations.Subtract
  else if operation_character = '*' then some Operations.Multiply
  else if operation_character = '/' then some Operations.Divide
  else if operation_character = '^' then some Operations.Power
  else none

/-- `turn_into_character` (lines 91–99): given an operation, turns it into its
character equivalent. -/
def turn_into_character (operations : Operations) : Char :=
  match operations with
  | Operations.Add => '+'
  | Operations.Subtract => '-'
  | Operations.Multiply => '*'
  | Operations.Divide => '/'
  | Operations.Power => '^'

/-- `calculate` (lines 102–110): calculates two numbers with the `Operations`
enum.  The `u32` arithmetic of the source is embedded on `Nat` with an explicit
`% 2 ^ 32` where the operation can leave the `u32` range (release-mode wrapping
semantics); the `Power` arm is `lval ^ rval` as in the source, which on Rust `u32`
is the bitwise exclusive-or, not exponentiation. -/
def calculate (lval rval : Nat) (operation : Operations) : Nat :=
  match operation with
  | Operations.Add => (lval + rval) % 2 ^ 32
  | Operations.Subtract => (lval + 2 ^ 32 - rval) % 2 ^ 32
  | Operations.Multiply => lval * rval % 2 ^ 32
  | Operations.Divide => lval / rval
  | Operations.Power => Nat.xor lval rval

/-- Alias for the free function `calculate`, needed because inside the
definition of `ExpressionStack.calculate` the bare name `calculate` would
resolve to the method being defined rather than to the free function that the
Rust body calls. -/
def binaryCalculate : Nat → Nat → Operations → Nat := calculate

/-- `struct ExpressionStack` (lines 116–120): the data structure which is meant
to handle the computation. -/
structure ExpressionStack where
  operation : Option Operations
  left_value : Option Nat
  right_value : Option Nat

/-- `ExpressionStack::calculate` (lines 129–139).  When all three fields are
present the source evaluates `calculate(left, right, operation)` as a bare
statement (its value is discarded, it is not returned) and control then falls
through to the unconditional panic at the end of the function; when a field
is absent the nested if-lets fail and the same panic is reached.  The
embedded function therefore returns `none` (the call aborts) on every input. -/
def ExpressionStack.calculate (s : ExpressionStack) : Option Nat :=
  match s.left_value, s.right_value, s.operation with
  | some left, some right, some operation =>
    let _discarded := binaryCalculate left right operation
    none
  | _, _, _ => none

/-- The Rust `char::is_numeric` test restricted to the ASCII range, where it coincides
with the decimal-digit test `'0' <= c && c <= '9'` (code points 48–57).
Outside ASCII, `char::is_numeric` also accepts other Unicode number characters
(on which the subsequent `to_digit(10).unwrap()` of the source would abort); the
embedding models the ASCII behaviour, which is the only one the specification
and the reference test exercise, and on which `to_digit(10)` always succeeds. -/
def is_numeric (c : Char) : Bool :=
  decide (48 ≤ c.toNat) && decide (c.toNat ≤ 57)

/-- `character.to_digit(10).unwrap()` for an ASCII digit: its numeric value. -/
def to_digit (c : Char) : Nat := c.toNat - 48

/-- The body of the pass-1 loop (lines 188–201) for one character: the four
independent `if`s of the source (`is_numeric`, `turn_into_operation`, `'('`,
`')'`) in source order, each pushing at most one atom. -/
def classifyChar (c : Char) : List ExpressionAtom :=
  (if is_numeric c then [ExpressionAtom.Number (to_digit c)] else [])
    ++ (match turn_into_operation c with
        | some op => [ExpressionAtom.Operation op]
        | none => [])
    ++ (if c = '(' then [ExpressionAtom.LeftParenthesis] else [])
    ++ (if c = ')' then [ExpressionAtom.RightParenthesis] else [])

/-- Pass 1 (`initial_tokenization`, lines 185–201): classify every character of
the input in order; characters that match no classification contribute nothing. -/
def initialTokenization : List Char → List ExpressionAtom
  | [] => []
  | c :: rest => classifyChar c ++ initialTokenization rest

/-- Decimal rendering of a `u32` (`old_number.to_string()` on line 220),
structured with a fuel argument so that it is structurally recursive; the fuel
`n + 1` always suffices because each step divides the number by 10. -/
def natToStringAux : Nat → Nat → List Char
  | 0, _ => []
  | fuel + 1, n =>
    if n < 10 then [Char.ofNat (48 + n)]
    else natToStringAux fuel (n / 10) ++ [Char.ofNat (48 + n % 10)]

/-- `to_string` of a `u32` value: its decimal digit string. -/
def natToString (n : Nat) : List Char := natToStringAux (n + 1) n

/-- Digit-by-digit accumulation of `str::parse::<u32>`, with the per-step
overflow check of the Rust implementation (each step multiplies the
accumulator by the radix and adds the digit, aborting when the result leaves
the `u32` range) and its digit test (`to_digit(10)`, exactly ASCII `0`–`9`). -/
def parseDigitsU32 : Nat → List Char → Option Nat
  | acc, [] => some acc
  | acc, c :: rest =>
    if is_numeric c then
      if acc * 10 + to_digit c ≤ u32Max then
        parseDigitsU32 (acc * 10 + to_digit c) rest
      else none
    else none

/-- `str::parse::<u32>` (the call on line 220): rejects the empty string,
allows one leading `'+'` sign followed by at least one digit, and otherwise
folds the digits with overflow checking. -/
def parseU32 : List Char → Option Nat
  | [] => none
  | c :: rest =>
    if c = '+' then
      match rest with
      | [] => none
      | _ :: _ => parseDigitsU32 0 rest
    else parseDigitsU32 0 (c :: rest)

/-- The pass-2 digit merge of line 220:
`(old_number.to_string() + &new_number.to_string()).parse::<u32>()`.
`none` means the subsequent `unwrap` aborts the call. -/
def mergeNumbers (old_number new_number : Nat) : Option Nat :=
  parseU32 (natToString old_number ++ natToString new_number)

/-- Flushing the pending `building_number` accumulator into the output. -/
def buildFlush : Option ExpressionAtom → List ExpressionAtom
  | some number => [number]
  | none => []

/-- Pass 2 (lines 203–232): walk the provisional atoms keeping the optional
`building_number` accumulator; any non-`Number` atom flushes the accumulator
and is appended unchanged; a `Number` atom either starts the accumulator or is
merged into it through `mergeNumbers`, whose `unwrap` failure aborts the whole
call (`none`).  The `[]` case is the final flush after the loop (lines
230–232). -/
def condense : Option ExpressionAtom → List ExpressionAtom → Option (List ExpressionAtom)
  | building, [] => some (buildFlush building)
  | building, ExpressionAtom.RightParenthesis :: rest =>
    Option.map (fun r => buildFlush building ++ ExpressionAtom.RightParenthesis :: r)
      (condense none rest)
  | building, ExpressionAtom.LeftParenthesis :: rest =>
    Option.map (fun r => buildFlush building ++ ExpressionAtom.LeftParenthesis :: r)
      (condense none rest)
  | building, ExpressionAtom.Operation op :: rest =>
    Option.map (fun r => buildFlush building ++ ExpressionAtom.Operation op :: r)
      (condense none rest)
  | building, ExpressionAtom.Number new_number :: rest =>
    match building with
    | some number =>
      match number with
      | ExpressionAtom.Number old_number =>
        match mergeNumbers old_number new_number with
        | some merged => condense (some (ExpressionAtom.Number merged)) rest
        | none => none
      | _ => condense building rest
    | none => condense (some (ExpressionAtom.Number new_number)) rest

/-- `struct OperationTokenTree` (lines 166–168). -/
structure OperationTokenTree where
  tokens : List ExpressionAtom

/-- `OperationTokenTree::evaluate_tokens` (lines 171–234): pass 1 then pass 2.
`none` means the call aborts (the `unwrap` in the merge fails). -/
def OperationTokenTree.evaluate_tokens (expression : String) :
    Option (List ExpressionAtom) :=
  condense none (initialTokenization expression.toList)

/-- The single atom (if any) that a character contributes in pass 1: an
`Operation` for an operator symbol, a parenthesis marker for `'('`/`')'`,
nothing for any other non-digit character.  Shared by the spec-side tokenizer
and the digit-run bookkeeping below. -/
def charAtom (c : Char) : Option ExpressionAtom :=
  match turn_into_operation c with
  | some op => some (ExpressionAtom.Operation op)
  | none =>
    if c = '(' then some ExpressionAtom.LeftParenthesis
    else if c = ')' then some ExpressionAtom.RightParenthesis
    else none

/-- Flushing of the spec-side accumulator: a pending digit-run value becomes
one `Number` atom. -/
def specFlush : Option Nat → List ExpressionAtom
  | some n => [ExpressionAtom.Number n]
  | none => []

/-- Spec-side tokenizer, following the words of the specification (the pass-2
state machine and the result description): the returned sequence contains one
`Number` atom per maximal run of consecutive digit characters, carrying the
decimal value of the run built up as `accumulator_value * 10 + new_digit_value`,
and one atom per operator or parenthesis character, in original left-to-right
order.  Characters that produce no atom do not end a run (they contribute no
pass-1 atom, so the digits around them stay consecutive). -/
def specTokenize : Option Nat → List Char → List ExpressionAtom
  | acc, [] => specFlush acc
  | acc, c :: rest =>
    if is_numeric c then specTokenize (some (acc.getD 0 * 10 + to_digit c)) rest
    else
      match charAtom c with
      | some a => specFlush acc ++ a :: specTokenize none rest
      | none => specTokenize acc rest

/-- Every digit-run merge performed on the input stays inside the `u32` range:
walking the characters with the pending run value `acc`, each extension
`acc * 10 + digit` is at most `u32Max`.  Equivalently, every maximal digit run
(runs are broken only by operator and parenthesis characters) has decimal
value at most `u32Max`. -/
def runsFit : Option Nat → List Char → Bool
  | _, [] => true
  | acc, c :: rest =>
    if is_numeric c then
      decide (acc.getD 0 * 10 + to_digit c ≤ u32Max) &&
        runsFit (some (acc.getD 0 * 10 + to_digit c)) rest
    else if (charAtom c).isSome then runsFit none rest
    else runsFit acc rest

/-- Recognizes a `Number` atom. -/
def isNumberAtom : ExpressionAtom → Bool
  | ExpressionAtom.Number _ => true
  | _ => false

/-- No two consecutive atoms of the list are both `Number`s. -/
def noAdjacentNumbers : List ExpressionAtom → Bool
  | a :: b :: rest => (!(isNumberAtom a && isNumberAtom b)) && noAdjacentNumbers (b :: rest)
  | _ => true

/-- All characters of the list are expression characters: decimal digits,
operator symbols, or parentheses. -/
def allExprChars (s : List Char) : Bool :=
  s.all fun c => is_numeric c || (charAtom c).isSome

/-- All characters of the list are ASCII. -/
def allAscii (s : List Char) : Bool :=
  s.all fun c => decide (c.toNat < 128)

example : OperationTokenTree.evaluate_tokens "1+2" =
    some [ExpressionAtom.Number 1, ExpressionAtom.Operation Operations.Add,
          ExpressionAtom.Number 2] := by decide

example : OperationTokenTree.evaluate_tokens "123" =
    some [ExpressionAtom.Number 123] := by decide

example : OperationTokenTree.evaluate_tokens "4294967296" = none := by decide

/-! ### Character classification lemmas -/

theorem is_numeric_bounds {c : Char} (h : is_numeric c = true) :
    48 ≤ c.toNat ∧ c.toNat ≤ 57 := by
  simpa [is_numeric] using h

theorem to_digit_le_nine {c : Char} (h : is_numeric c = true) : to_digit c ≤ 9 := by
  have := is_numeric_bounds h
  unfold to_digit
  omega

theorem turn_into_operation_eq_some {c : Char} {op : Operations}
    (h : turn_into_operation c = some op) :
    c = '+' ∨ c = '-' ∨ c = '*' ∨ c = '/' ∨ c = '^' := by
  unfold turn_into_operation at h
  split_ifs at h <;> simp_all

theorem turn_into_operation_of_numeric {c : Char} (h : is_numeric c = true) :
    turn_into_operation c = none := by
  unfold turn_into_operation
  split_ifs with h1 h2 h3 h4 h5
  · subst h1; exact absurd h (by decide)
  · subst h2; exact absurd h (by decide)
  · subst h3; exact absurd h (by decide)
  · subst h4; exact absurd h (by decide)
  · subst h5; exact absurd h (by decide)
  · rfl

theorem numeric_ne_lparen {c : Char} (h : is_numeric c = true) : ¬ c = '(' := by
  intro hc; subst hc; exact absurd h (by decide)

theorem numeric_ne_rparen {c : Char} (h : is_numeric c = true) : ¬ c = ')' := by
  intro hc; subst hc; exact absurd h (by decide)

theorem classifyChar_numeric {c : Char} (h : is_numeric c = true) :
    classifyChar c = [ExpressionAtom.Number (to_digit c)] := by
  simp [classifyChar, h, turn_into_operation_of_numeric h,
    numeric_ne_lparen h, numeric_ne_rparen h]

theorem classifyChar_op {c : Char} {op : Operations}
    (h : turn_into_operation c = some op) :
    classifyChar c = [ExpressionAtom.Operation op] := by
  rcases turn_into_operation_eq_some h with h1 | h1 | h1 | h1 | h1 <;> subst h1
  · have h2 : Operations.Add = op := Option.some.inj h
    subst h2; decide
  · have h2 : Operations.Subtract = op := Option.some.inj h
    subst h2; decide
  · have h2 : Operations.Multiply = op := Option.some.inj h
    subst h2; decide
  · have h2 : Operations.Divide = op := Option.some.inj h
    subst h2; decide
  · have h2 : Operations.Power = op := Option.some.inj h
    subst h2; decide

theorem classifyChar_skip {c : Char} (h1 : is_numeric c = false)
    (h2 : turn_into_operation c = none) (h3 : ¬ c = '(') (h4 : ¬ c = ')') :
    classifyChar c = [] := by
  simp [classifyChar, h1, h2, h3, h4]

theorem charAtom_op {c : Char} {op : Operations}
    (h : turn_into_operation c = some op) :
    charAtom c = some (ExpressionAtom.Operation op) := by
  simp [charAtom, h]

theorem charAtom_skip {c : Char} (h2 : turn_into_operation c = none)
    (h3 : ¬ c = '(') (h4 : ¬ c = ')') : charAtom c = none := by
  simp [charAtom, h2, h3, h4]

/-! ### Equation lemmas for `condense` -/

theorem condense_nil (b : Option ExpressionAtom) : condense b [] = some (buildFlush b) := rfl

theorem condense_op (b : Option ExpressionAtom) (op : Operations)
    (ts : List ExpressionAtom) :
    condense b (ExpressionAtom.Operation op :: ts) =
      Option.map (fun r => buildFlush b ++ ExpressionAtom.Operation op :: r)
        (condense none ts) := rfl

theorem condense_lparen (b : Option ExpressionAtom) (ts : List ExpressionAtom) :
    condense b (ExpressionAtom.LeftParenthesis :: ts) =
      Option.map (fun r => buildFlush b ++ ExpressionAtom.LeftParenthesis :: r)
        (condense none ts) := rfl

theorem condense_rparen (b : Option ExpressionAtom) (ts : List ExpressionAtom) :
    condense b (ExpressionAtom.RightParenthesis :: ts) =
      Option.map (fun r => buildFlush b ++ ExpressionAtom.RightParenthesis :: r)
        (condense none ts) := rfl

theorem condense_number_fresh (d : Nat) (ts : List ExpressionAtom) :
    condense none (ExpressionAtom.Number d :: ts) =
      condense (some (ExpressionAtom.Number d)) ts := rfl

theorem condense_number_merge (old d : Nat) (ts : List ExpressionAtom) :
    condense (some (ExpressionAtom.Number old)) (ExpressionAtom.Number d :: ts) =
      match mergeNumbers old d with
      | some merged => condense (some (ExpressionAtom.Number merged)) ts
      | none => none := rfl

theorem buildFlush_map (acc : Option Nat) :
    buildFlush (Option.map ExpressionAtom.Number acc) = specFlush acc := by
  cases acc <;> rfl

/-! ### Decimal rendering and `u32` parsing -/

theorem toNat_ofNat_digit {m : Nat} (h : m ≤ 9) :
    (Char.ofNat (48 + m)).toNat = 48 + m := by
  interval_cases m <;> decide

theorem parseDigitsU32_append (acc : Nat) (xs ys : List Char) :
    parseDigitsU32 acc (xs ++ ys) =
      (parseDigitsU32 acc xs).bind fun v => parseDigitsU32 v ys := by
  induction xs generalizing acc with
  | nil => rfl
  | cons c rest ih =>
    simp only [List.cons_append, parseDigitsU32]
    split_ifs with h1 h2
    · exact ih _
    · rfl
    · rfl

theorem parseDigitsU32_single (acc d : Nat) (hd : d ≤ 9) :
    parseDigitsU32 acc [Char.ofNat (48 + d)] =
      if acc * 10 + d ≤ u32Max then some (acc * 10 + d) else none := by
  have ht := toNat_ofNat_digit hd
  simp only [parseDigitsU32, is_numeric, to_digit, ht]
  rw [decide_eq_true (show 48 ≤ 48 + d by omega),
      decide_eq_true (show 48 + d ≤ 57 by omega)]
  have h48 : 48 + d - 48 = d := by omega
  rw [h48]
  simp only [Bool.and_self, if_true]

theorem natToStringAux_mem {fuel n : Nat} (h : n < fuel) :
    ∀ c ∈ natToStringAux fuel n, 48 ≤ c.toNat ∧ c.toNat ≤ 57 := by
  induction fuel generalizing n with
  | zero => omega
  | succ fuel ih =>
    intro c hc
    simp only [natToStringAux] at hc
    split_ifs at hc with h10
    · simp only [List.mem_singleton] at hc
      subst hc
      rw [toNat_ofNat_digit (show n ≤ 9 by omega)]
      omega
    · rw [List.mem_append] at hc
      rcases hc with hc | hc
      · exact ih (show n / 10 < fuel by omega) c hc
      · simp only [List.mem_singleton] at hc
        subst hc
        rw [toNat_ofNat_digit (show n % 10 ≤ 9 by omega)]
        omega

theorem natToStringAux_ne_nil {fuel n : Nat} (h : n < fuel) :
    natToStringAux fuel n ≠ [] := by
  cases fuel with
  | zero => omega
  | succ fuel =>
    simp only [natToStringAux]
    split_ifs <;> simp

theorem parseDigitsU32_natToStringAux {fuel n : Nat} (h : n < fuel) :
    parseDigitsU32 0 (natToStringAux fuel n) =
      if n ≤ u32Max then some n else none := by
  induction fuel generalizing n with
  | zero => omega
  | succ fuel ih =>
    by_cases h10 : n < 10
    · rw [show natToStringAux (fuel + 1) n = [Char.ofNat (48 + n)] from by
        simp only [natToStringAux, if_pos h10]]
      rw [parseDigitsU32_single 0 n (show n ≤ 9 by omega)]
      have hz : 0 * 10 + n = n := by omega
      rw [hz]
    · rw [show natToStringAux (fuel + 1) n =
          natToStringAux fuel (n / 10) ++ [Char.ofNat (48 + n % 10)] from by
        simp only [natToStringAux, if_neg h10]]
      rw [parseDigitsU32_append, ih (show n / 10 < fuel by omega)]
      by_cases hdiv : n / 10 ≤ u32Max
      · rw [if_pos hdiv, Option.some_bind]
        rw [parseDigitsU32_single (n / 10) (n % 10) (show n % 10 ≤ 9 by omega)]
        have hn : n / 10 * 10 + n % 10 = n := by omega
        rw [hn]
      · rw [if_neg hdiv, Option.none_bind]
        rw [if_neg (show ¬ n ≤ u32Max by rw [u32Max_eq] at hdiv ⊢; omega)]

theorem natToString_single {d : Nat} (hd : d ≤ 9) :
    natToString d = [Char.ofNat (48 + d)] := by
  simp only [natToString, natToStringAux, if_pos (show d < 10 by omega)]

/-- Key refinement fact about the pass-2 merge of line 220: string
concatenation plus reparsing computes `old * 10 + d` (with the `u32` overflow
check), for any in-range accumulator `old` and single-digit `d`. -/
theorem mergeNumbers_eq {old d : Nat} (hold : old ≤ u32Max) (hd : d ≤ 9) :
    mergeNumbers old d =
      if old * 10 + d ≤ u32Max then some (old * 10 + d) else none := by
  unfold mergeNumbers
  rw [natToString_single hd]
  cases hlist : natToString old with
  | nil => exact absurd hlist (natToStringAux_ne_nil (Nat.lt_succ_self old))
  | cons a as =>
    have ha : 48 ≤ a.toNat ∧ a.toNat ≤ 57 := by
      apply natToStringAux_mem (Nat.lt_succ_self old)
      rw [show natToStringAux (old + 1) old = natToString old from rfl, hlist]
      exact List.mem_cons_self a as
    have hne : ¬ a = '+' := by
      intro hc
      subst hc
      revert ha
      decide
    have hparse : parseDigitsU32 0 (natToString old) = some old := by
      rw [show natToString old = natToStringAux (old + 1) old from rfl,
          parseDigitsU32_natToStringAux (Nat.lt_succ_self old), if_pos hold]
    rw [List.cons_append]
    rw [show parseU32 (a :: (as ++ [Char.ofNat (48 + d)])) =
        parseDigitsU32 0 (a :: (as ++ [Char.ofNat (48 + d)])) from by
      simp only [parseU32, if_neg hne]]
    rw [← List.cons_append, ← hlist, parseDigitsU32_append, hparse, Option.some_bind]
    exact parseDigitsU32_single old d hd

/-! ### Unfolding lemmas for the spec-side tokenizer and the run bookkeeping -/

theorem specTokenize_numeric {c : Char} (hnum : is_numeric c = true)
    (acc : Option Nat) (rest : List Char) :
    specTokenize acc (c :: rest) =
      specTokenize (some (acc.getD 0 * 10 + to_digit c)) rest := by
  simp [specTokenize, hnum]

theorem specTokenize_atom {c : Char} {a : ExpressionAtom}
    (hnum : is_numeric c = false) (h : charAtom c = some a)
    (acc : Option Nat) (rest : List Char) :
    specTokenize acc (c :: rest) = specFlush acc ++ a :: specTokenize none rest := by
  simp [specTokenize, hnum, h]

theorem specTokenize_skip {c : Char} (hnum : is_numeric c = false)
    (h : charAtom c = none) (acc : Option Nat) (rest : List Char) :
    specTokenize acc (c :: rest) = specTokenize acc rest := by
  simp [specTokenize, hnum, h]

theorem runsFit_numeric {c : Char} (hnum : is_numeric c = true)
    (acc : Option Nat) (rest : List Char) :
    runsFit acc (c :: rest) =
      (decide (acc.getD 0 * 10 + to_digit c ≤ u32Max) &&
        runsFit (some (acc.getD 0 * 10 + to_digit c)) rest) := by
  simp [runsFit, hnum]

theorem runsFit_atom {c : Char} {a : ExpressionAtom}
    (hnum : is_numeric c = false) (h : charAtom c = some a)
    (acc : Option Nat) (rest : List Char) :
    runsFit acc (c :: rest) = runsFit none rest := by
  simp [runsFit, hnum, h]

theorem runsFit_skip {c : Char} (hnum : is_numeric c = false)
    (h : charAtom c = none) (acc : Option Nat) (rest : List Char) :
    runsFit acc (c :: rest) = runsFit acc rest := by
  simp [runsFit, hnum, h]

theorem charAtom_none_arm {c : Char} (hop : turn_into_operation c = none) :
    charAtom c =
      if c = '(' then some ExpressionAtom.LeftParenthesis
      else if c = ')' then some ExpressionAtom.RightParenthesis
      else none := by
  simp only [charAtom, hop]

theorem classifyChar_of_charAtom {c : Char} {a : ExpressionAtom}
    (h : charAtom c = some a) : classifyChar c = [a] ∧ isNumberAtom a = false := by
  cases hop : turn_into_operation c with
  | some op =>
    rw [charAtom_op hop] at h
    have ha : ExpressionAtom.Operation op = a := Option.some.inj h
    subst ha
    exact ⟨classifyChar_op hop, rfl⟩
  | none =>
    rw [charAtom_none_arm hop] at h
    split_ifs at h with h3 h4
    · have ha : ExpressionAtom.LeftParenthesis = a := Option.some.inj h
      subst ha
      subst h3
      exact ⟨by decide, rfl⟩
    · have ha : ExpressionAtom.RightParenthesis = a := Option.some.inj h
      subst ha
      subst h4
      exact ⟨by decide, rfl⟩

theorem classifyChar_of_charAtom_none {c : Char} (hnum : is_numeric c = false)
    (h : charAtom c = none) : classifyChar c = [] := by
  cases hop : turn_into_operation c with
  | some op =>
    rw [charAtom_op hop] at h
    exact Option.noConfusion h
  | none =>
    rw [charAtom_none_arm hop] at h
    split_ifs at h with h3 h4
    exact classifyChar_skip hnum hop h3 h4

theorem condense_nonNumber (b : Option ExpressionAtom) {a : ExpressionAtom}
    (h : isNumberAtom a = false) (ts : List ExpressionAtom) :
    condense b (a :: ts) =
      Option.map (fun r => buildFlush b ++ a :: r) (condense none ts) := by
  cases a with
  | Number d => exact absurd h (by simp [isNumberAtom])
  | Operation op => exact condense_op b op ts
  | LeftParenthesis => exact condense_lparen b ts
  | RightParenthesis => exact condense_rparen b ts

/-! ### The main simulation lemma: pass 1 + pass 2 compute the spec-side
tokenization whenever no digit-run merge leaves the `u32` range. -/

theorem condense_initialTokenization :
    ∀ (s : List Char) (acc : Option Nat),
      (∀ v, acc = some v → v ≤ u32Max) →
      runsFit acc s = true →
      condense (Option.map ExpressionAtom.Number acc) (initialTokenization s) =
        some (specTokenize acc s) := by
  intro s
  induction s with
  | nil =>
    intro acc hacc hfit
    cases acc <;> rfl
  | cons c rest ih =>
    intro acc hacc hfit
    rw [show initialTokenization (c :: rest) =
        classifyChar c ++ initialTokenization rest from rfl]
    by_cases hnum : is_numeric c = true
    · rw [runsFit_numeric hnum] at hfit
      rw [Bool.and_eq_true, decide_eq_true_eq] at hfit
      obtain ⟨hle, hfit⟩ := hfit
      rw [classifyChar_numeric hnum, List.singleton_append,
          specTokenize_numeric hnum]
      cases acc with
      | none =>
        simp only [Option.getD_none] at hle hfit ⊢
        have h0 : (0 : Nat) * 10 + to_digit c = to_digit c := by omega
        rw [h0] at hle hfit ⊢
        rw [show Option.map ExpressionAtom.Number none =
            (none : Option ExpressionAtom) from rfl, condense_number_fresh]
        refine ih (some (to_digit c)) ?_ hfit
        intro v hv
        have hv' : to_digit c = v := Option.some.inj hv
        have h9 := to_digit_le_nine hnum
        rw [u32Max_eq]
        omega
      | some old =>
        simp only [Option.getD_some] at hle hfit ⊢
        rw [show Option.map ExpressionAtom.Number (some old) =
            some (ExpressionAtom.Number old) from rfl, condense_number_merge,
            mergeNumbers_eq (hacc old rfl) (to_digit_le_nine hnum), if_pos hle]
        refine ih (some (old * 10 + to_digit c)) ?_ hfit
        intro v hv
        have hv' : old * 10 + to_digit c = v := Option.some.inj hv
        omega
    · have hnum' : is_numeric c = false := by
        cases hval : is_numeric c
        · rfl
        · exact absurd hval hnum
      cases hclass : charAtom c with
      | some a =>
        obtain ⟨hcl, hna⟩ := classifyChar_of_charAtom hclass
        rw [hcl, List.singleton_append, condense_nonNumber _ hna]
        rw [runsFit_atom hnum' hclass] at hfit
        have hih := ih none (fun v hv => absurd hv (by simp)) hfit
        rw [show Option.map ExpressionAtom.Number (none : Option Nat) =
            (none : Option ExpressionAtom) from rfl] at hih
        rw [hih, Option.map_some', buildFlush_map, specTokenize_atom hnum' hclass]
      | none =>
        rw [classifyChar_of_charAtom_none hnum' hclass, List.nil_append,
            specTokenize_skip hnum' hclass]
        rw [runsFit_skip hnum' hclass] at hfit
        exact ih acc hacc hfit

/-! ### No two consecutive `Number` atoms in pass-2 output -/

theorem noAdjacentNumbers_cons {a : ExpressionAtom} (h : isNumberAtom a = false)
    (l : List ExpressionAtom) :
    noAdjacentNumbers (a :: l) = noAdjacentNumbers l := by
  cases l with
  | nil => rfl
  | cons b t => simp [noAdjacentNumbers, h]

theorem noAdjacentNumbers_flush_cons (b : Option ExpressionAtom)
    (a : ExpressionAtom) (h : isNumberAtom a = false) (r : List ExpressionAtom) :
    noAdjacentNumbers (buildFlush b ++ a :: r) = noAdjacentNumbers r := by
  cases b with
  | none => exact noAdjacentNumbers_cons h r
  | some n =>
    rw [show buildFlush (some n) ++ a :: r = n :: a :: r from rfl]
    rw [show noAdjacentNumbers (n :: a :: r) =
        ((!(isNumberAtom n && isNumberAtom a)) && noAdjacentNumbers (a :: r)) from rfl]
    rw [h, noAdjacentNumbers_cons h r]
    simp

theorem condense_noAdjacent :
    ∀ (ts : List ExpressionAtom) (b : Option ExpressionAtom)
      (out : List ExpressionAtom),
      condense b ts = some out → noAdjacentNumbers out = true := by
  intro ts
  induction ts with
  | nil =>
    intro b out h
    rw [condense_nil] at h
    have hout : buildFlush b = out := Option.some.inj h
    subst hout
    cases b with
    | none => rfl
    | some n => rfl
  | cons t rest ih =>
    intro b out h
    cases t with
    | Number d =>
      cases b with
      | none =>
        rw [condense_number_fresh] at h
        exact ih _ _ h
      | some number =>
        cases number with
        | Number old =>
          rw [condense_number_merge] at h
          cases hm : mergeNumbers old d with
          | none =>
            rw [hm] at h
            exact Option.noConfusion h
          | some merged =>
            rw [hm] at h
            exact ih _ _ h
        | Operation op => exact ih _ _ h
        | LeftParenthesis => exact ih _ _ h
        | RightParenthesis => exact ih _ _ h
    | Operation op =>
      rw [condense_op] at h
      cases hc : condense none rest with
      | none =>
        rw [hc] at h
        exact Option.noConfusion h
      | some r =>
        rw [hc, Option.map_some'] at h
        have hout : buildFlush b ++ ExpressionAtom.Operation op :: r = out :=
          Option.some.inj h
        subst hout
        rw [noAdjacentNumbers_flush_cons b (ExpressionAtom.Operation op) rfl r]
        exact ih none r hc
    | LeftParenthesis =>
      rw [condense_lparen] at h
      cases hc : condense none rest with
      | none =>
        rw [hc] at h
        exact Option.noConfusion h
      | some r =>
        rw [hc, Option.map_some'] at h
        have hout : buildFlush b ++ ExpressionAtom.LeftParenthesis :: r = out :=
          Option.some.inj h
        subst hout
        rw [noAdjacentNumbers_flush_cons b ExpressionAtom.LeftParenthesis rfl r]
        exact ih none r hc
    | RightParenthesis =>
      rw [condense_rparen] at h
      cases hc : condense none rest with
      | none =>
        rw [hc] at h
        exact Option.noConfusion h
      | some r =>
        rw [hc, Option.map_some'] at h
        have hout : buildFlush b ++ ExpressionAtom.RightParenthesis :: r = out :=
          Option.some.inj h
        subst hout
        rw [noAdjacentNumbers_flush_cons b ExpressionAtom.RightParenthesis rfl r]
        exact ih none r hc

/-! ### Claim theorems -/

/-- C1, counterexample: the claim says `evaluate_tokens` returns normally on
every input, but on the ten-digit string "9999999999" the digit-run merge
parses a value beyond `u32::MAX` and the `unwrap` on line 220 aborts the
call. -/
theorem C1_counterexample :
    OperationTokenTree.evaluate_tokens "9999999999" = none := by decide

/-- C1 (amended): `evaluate_tokens` returns normally (with a complete atom
sequence) on every ASCII input in which every digit-run merge stays within the
`u32` range, i.e. every maximal digit run — runs are broken only by operator
and parenthesis characters — has decimal value at most `u32::MAX`; pass-1
classification never aborts on such inputs and the pass-2 merge never aborts
under the overflow bound. -/
theorem C1_amended_no_failure (s : String) (_hascii : allAscii s.toList = true)
    (hfit : runsFit none s.toList = true) :
    (OperationTokenTree.evaluate_tokens s).isSome = true := by
  unfold OperationTokenTree.evaluate_tokens
  rw [show (none : Option ExpressionAtom) =
      Option.map ExpressionAtom.Number none from rfl,
      condense_initialTokenization s.toList none (fun v hv => absurd hv (by simp)) hfit]
  rfl

/-- C1 witness: the amended theorem applied to the concrete input "1+(2*3)". -/
theorem C1_witness : (OperationTokenTree.evaluate_tokens "1+(2*3)").isSome = true :=
  C1_amended_no_failure "1+(2*3)" (by decide) (by decide)

/-- C2: tokenizing the nested input "1+(1+(2+4+5666))" of the reference test
yields exactly the thirteen-atom sequence of the specification. -/
theorem C2_reference_example :
    OperationTokenTree.evaluate_tokens "1+(1+(2+4+5666))" =
      some [ExpressionAtom.Number 1,
            ExpressionAtom.Operation Operations.Add,
            ExpressionAtom.LeftParenthesis,
            ExpressionAtom.Number 1,
            ExpressionAtom.Operation Operations.Add,
            ExpressionAtom.LeftParenthesis,
            ExpressionAtom.Number 2,
            ExpressionAtom.Operation Operations.Add,
            ExpressionAtom.Number 4,
            ExpressionAtom.Operation Operations.Add,
            ExpressionAtom.Number 5666,
            ExpressionAtom.RightParenthesis,
            ExpressionAtom.RightParenthesis] := by decide

/-- C3: the pass-2 digit merge implemented by decimal-string concatenation and
reparsing (`mergeNumbers`) equals the arithmetic `accumulator * 10 + digit`
for every in-range accumulator and single-digit value whose merged result fits
in a `u32`; consequently merging the digits 1, 2, 3 in encounter order yields
123. -/
theorem C3_merge_refines_arithmetic :
    (∀ old d : Nat, old ≤ u32Max → d ≤ 9 → old * 10 + d ≤ u32Max →
      mergeNumbers old d = some (old * 10 + d)) ∧
    mergeNumbers 1 2 = some 12 ∧ mergeNumbers 12 3 = some 123 := by
  refine ⟨?_, by decide, by decide⟩
  intro old d hold hd hfits
  rw [mergeNumbers_eq hold hd, if_pos hfits]

/-- C3 witness: the refinement equation applied at the concrete accumulator 42
and digit 7. -/
theorem C3_witness : mergeNumbers 42 7 = some 427 :=
  C3_merge_refines_arithmetic.1 42 7 (by decide) (by decide) (by decide)

/-- C4, counterexample: "4294967296" is composed only of decimal digits, yet
`evaluate_tokens` returns no sequence at all on it (the digit-run merge
aborts), so it does not return one atom per character run as claimed. -/
theorem C4_counterexample :
    allExprChars "4294967296".toList = true ∧
    OperationTokenTree.evaluate_tokens "4294967296" = none := ⟨by decide, by decide⟩

/-- C4 (amended): for every input composed only of decimal digits, operator
symbols and parentheses, in which every maximal digit run fits in a `u32`,
`evaluate_tokens` skips no character: it returns exactly the spec-side
tokenization — one `Number` atom per maximal run of consecutive digit
characters and one atom per operator or parenthesis character, in original
left-to-right order. -/
theorem C4_amended_exact_output (s : String)
    (_halpha : allExprChars s.toList = true)
    (hfit : runsFit none s.toList = true) :
    OperationTokenTree.evaluate_tokens s = some (specTokenize none s.toList) := by
  unfold OperationTokenTree.evaluate_tokens
  rw [show (none : Option ExpressionAtom) =
      Option.map ExpressionAtom.Number none from rfl]
  exact condense_initialTokenization s.toList none (fun v hv => absurd hv (by simp)) hfit

/-- C4 witness: the amended theorem applied to the concrete input "12+34". -/
theorem C4_witness :
    OperationTokenTree.evaluate_tokens "12+34" =
      some (specTokenize none "12+34".toList) :=
  C4_amended_exact_output "12+34" (by decide) (by decide)

/-- C5: contrary to the claim, `ExpressionStack::calculate` aborts on every
input — even when left value, right value and operation are all present — the
computed value is discarded and the `panic` is reached unconditionally; the
claim is right about the absent-field case only. -/
theorem C5_calculate_always_aborts :
    (∀ st : ExpressionStack, st.calculate = none) ∧
    ExpressionStack.calculate
      ⟨some Operations.Add, some 1, some 2⟩ = none := by
  refine ⟨?_, rfl⟩
  intro st
  rcases st with ⟨op, l, r⟩
  cases op <;> cases l <;> cases r <;> rfl

/-- C6: the free function `calculate` implements Power as the bitwise exclusive-or
of its `u32` operands, not exponentiation; at lval = 2, rval = 3 it differs
from 2 ^ 3. -/
theorem C6_power_is_xor :
    (∀ lval rval : Nat, lval < 2 ^ 32 → rval < 2 ^ 32 →
      calculate lval rval Operations.Power = Nat.xor lval rval) ∧
    calculate 2 3 Operations.Power ≠ 2 ^ 3 := by
  exact ⟨fun lval rval h1 h2 => rfl, by decide⟩

/-- C6 witness: the theorem applied at the concrete operands 2 and 3. -/
theorem C6_witness :
    calculate 2 3 Operations.Power = Nat.xor 2 3 ∧
    calculate 2 3 Operations.Power ≠ 2 ^ 3 :=
  ⟨C6_power_is_xor.1 2 3 (by decide) (by decide), C6_power_is_xor.2⟩

/-- C7: each of the five operator characters maps to an operation whose symbol
round-trips through `turn_into_character`, and tokenizing its one-character
string yields exactly one `Operation` atom; every other character maps to
none. -/
theorem C7_roundtrip :
    (∀ c : Char, c ∈ ['+', '-', '*', '/', '^'] →
      ∃ op : Operations, turn_into_operation c = some op ∧
        turn_into_character op = c ∧
        OperationTokenTree.evaluate_tokens (String.mk [c]) =
          some [ExpressionAtom.Operation op]) ∧
    (∀ c : Char, c ∉ ['+', '-', '*', '/', '^'] → turn_into_operation c = none) := by
  constructor
  · intro c hc
    simp only [List.mem_cons, List.not_mem_nil, or_false] at hc
    rcases hc with h | h | h | h | h <;> subst h
    · exact ⟨Operations.Add, by decide, by decide, by decide⟩
    · exact ⟨Operations.Subtract, by decide, by decide, by decide⟩
    · exact ⟨Operations.Multiply, by decide, by decide, by decide⟩
    · exact ⟨Operations.Divide, by decide, by decide, by decide⟩
    · exact ⟨Operations.Power, by decide, by decide, by decide⟩
  · intro c hc
    simp only [List.mem_cons, List.not_mem_nil, or_false, not_or] at hc
    obtain ⟨h1, h2, h3, h4, h5⟩ := hc
    unfold turn_into_operation
    rw [if_neg h1, if_neg h2, if_neg h3, if_neg h4, if_neg h5]

/-- C7 witness: the round-trip part at the character `'+'` and the none part
at the character `'a'`. -/
theorem C7_witness :
    (∃ op : Operations, turn_into_operation '+' = some op ∧
      turn_into_character op = '+' ∧
      OperationTokenTree.evaluate_tokens (String.mk ['+']) =
        some [ExpressionAtom.Operation op]) ∧
    turn_into_operation 'a' = none :=
  ⟨C7_roundtrip.1 '+' (by decide), C7_roundtrip.2 'a' (by decide)⟩

/-- C8: the precedence table is exactly
`[Power, Multiply, Divide, Add, Subtract]` and contains every `Operations`
variant exactly once. -/
theorem C8_order_of_operations :
    ORDER_OF_OPERATIONS =
      [Operations.Power, Operations.Multiply, Operations.Divide,
       Operations.Add, Operations.Subtract] ∧
    ORDER_OF_OPERATIONS.count Operations.Add = 1 ∧
    ORDER_OF_OPERATIONS.count Operations.Subtract = 1 ∧
    ORDER_OF_OPERATIONS.count Operations.Multiply = 1 ∧
    ORDER_OF_OPERATIONS.count Operations.Divide = 1 ∧
    ORDER_OF_OPERATIONS.count Operations.Power = 1 := by
  refine ⟨rfl, ?_, ?_, ?_, ?_, ?_⟩ <;> decide

/-- C9: whenever `evaluate_tokens` returns a sequence, that sequence never
contains two consecutive `Number` atoms; in particular digit runs separated
only by skipped characters merge, so "1 2" tokenizes to `[Number 12]`, the
same as "12". -/
theorem C9_no_adjacent_numbers :
    (∀ (s : String) (ts : List ExpressionAtom),
      OperationTokenTree.evaluate_tokens s = some ts →
      noAdjacentNumbers ts = true) ∧
    OperationTokenTree.evaluate_tokens "1 2" = some [ExpressionAtom.Number 12] ∧
    OperationTokenTree.evaluate_tokens "1 2" =
      OperationTokenTree.evaluate_tokens "12" := by
  refine ⟨?_, by decide, by decide⟩
  intro s ts h
  exact condense_noAdjacent _ _ _ h

/-- C9 witness: the invariant applied to the concrete input "1+2". -/
theorem C9_witness :
    noAdjacentNumbers [ExpressionAtom.Number 1,
      ExpressionAtom.Operation Operations.Add, ExpressionAtom.Number 2] = true :=
  C9_no_adjacent_numbers.1 "1+2"
    [ExpressionAtom.Number 1, ExpressionAtom.Operation Operations.Add,
     ExpressionAtom.Number 2] (by decide)

/-- C10: the abort branch of the merge is reachable: on the ten-digit input
"4294967296" (one more than `u32::MAX`) the concatenated digit string fails
the `u32` parse and the call aborts. -/
theorem C10_overflow_aborts :
    OperationTokenTree.evaluate_tokens "4294967296" = none := by decide
